import Mathlib

/-!
Shallow embedding of `tictactoe.py`: the `TicTacToeState` board class and the
`Game` match driver, together with proofs about the specified properties.

Modelling conventions:
* A Python `dict` / `ChainMap` keyed by `(row, col)` integer tuples is embedded
  as an association list `List ((Int × Int) × Option Char)`; a value `none`
  models Python `None` (an empty cell), `some c` models the player label `c`.
* Python dictionaries have distinct keys; every observation the class makes of
  the board (`len`, `keys()`, `values()` as a set, item lookup) is insensitive
  to entry order, so association-list order is a representation choice.
* `range(n)` on a Python `int` is embedded as `pyRange`, which is empty for
  non-positive arguments.
* Exceptions raised by a function are embedded as `Except` results.
-/

namespace TTT

/-- Embedding of Python `range(i)` for an `int` argument, as a list of `Int`
(empty when `i ≤ 0`). -/
def pyRangeN (n : Nat) : List Int :=
  (List.range n).map (fun (k : Nat) => (k : Int))

def pyRange (i : Int) : List Int :=
  pyRangeN i.toNat

/-- The key set `{(row, col) for row in range(n) for col in range(n)}` of an
`n × n` board, in row-major order (Python builds it as an unordered set; order
is irrelevant to every board operation). -/
def gridKeys (n : Nat) : List (Int × Int) :=
  (pyRangeN n).flatMap (fun r => (pyRangeN n).map (fun c => (r, c)))

/-- Largest `j ≤ m` with `j * j ≤ n` (structurally recursive so that the
kernel can evaluate it). -/
def isqrtAux (n : Nat) : Nat → Nat
  | 0 => 0
  | m + 1 => if (m + 1) * (m + 1) ≤ n then m + 1 else isqrtAux n m

/-- Integer square root, `int(n ** 0.5)`; proved equal to `Nat.sqrt` below. -/
def isqrt (n : Nat) : Nat :=
  isqrtAux n n

/-- The cell mapping of a board: Python `dict`/`ChainMap` from `(row, col)`
to `None` (empty) or a label. -/
abbrev Board : Type := List ((Int × Int) × Option Char)

/-- Python `board[loc]` as a partial lookup: `none` models a `KeyError`,
`some v` the stored value. -/
def lookup (b : Board) (loc : Int × Int) : Option (Option Char) :=
  (b.find? (fun e => decide (e.1 = loc))).map (fun e => e.2)

/-- Embedding of `self.board.new_child({loc: label})`: every lookup of `loc`
now returns `label`, all other keys read as before, and the key set is
unchanged (`loc` is already a key whenever `move` reaches this call). -/
def setCell (b : Board) (loc : Int × Int) (v : Option Char) : Board :=
  b.map (fun e => if e.1 = loc then (e.1, v) else e)

structure TicTacToeState where
  board : Board
  deriving DecidableEq

/-- `TicTacToeState.new(size)`: all cells of the `size × size` grid set to
`None`. For `size ≤ 0` the Python comprehension over `range(size)` is empty,
so the board has no cells — the constructor does not fail. -/
def TicTacToeState.new (size : Int) : TicTacToeState :=
  ⟨(gridKeys size.toNat).map (fun loc => (loc, none))⟩

/-- The value stored for one character of the text format:
`player if player != '.' else None`. -/
def cellVal (c : Char) : Option Char :=
  if c = '.' then none else some c

/-- The dict entries contributed by one line of `from_str`:
`for col, player in enumerate(line): board[(row, col)] = ...`, with the
`enumerate` counter started at `j` (the source always starts at `0`; the
offset generalization is used by the proofs). -/
def rowEntriesFrom (r : Nat) (j : Nat) (line : List Char) : Board :=
  (line.enumFrom j).map (fun p => (((r : Int), (p.1 : Int)), cellVal p.2))

/-- The dict built by the nested `enumerate` loops of `from_str`, with the
row counter started at `k` (the source starts at `0`). All keys `(row, col)`
produced by `enumerate` are distinct, so dict insertion order is exactly this
row-major entry order. -/
def boardFrom (k : Nat) (lines : List (List Char)) : Board :=
  ((lines.enumFrom k).map (fun p => rowEntriesFrom p.1 0 p.2)).flatten

/-- `TicTacToeState.from_str`: the argument is the line list produced by
`board_str.split()` (whitespace splitting is string plumbing outside the
model). No validation is performed. -/
def TicTacToeState.from_str (lines : List (List Char)) : TicTacToeState :=
  ⟨boardFrom 0 lines⟩

/-- `size(self) = int(len(self.board) ** 0.5)`: integer square root of the
cell count. -/
def TicTacToeState.size (s : TicTacToeState) : Nat :=
  isqrt s.board.length

/-- `self.board[(row, col)]` where `(row, col)` is a key of the board (the
source raises `KeyError` otherwise; the functions below only apply this to
keys taken from the board itself, or to complete grids). -/
def getCell (s : TicTacToeState) (loc : Int × Int) : Option Char :=
  (lookup s.board loc).getD none

/-- `__str__`, as the row-major grid of cell characters (the source joins the
rows with a newline after each; the grid itself is what the round-trip
properties are about): `self.board[(row, col)] or '.'`. -/
def TicTacToeState.render (s : TicTacToeState) : List (List Char) :=
  (pyRangeN s.size).map (fun row =>
    (pyRangeN s.size).map (fun col =>
      match getCell s (row, col) with
      | some ch => ch
      | none => '.'))

/-- The `MoveError` hierarchy: `InvalidLocation(loc)` and
`AlreadyOccupied(loc, contents)`. -/
inductive MoveErr where
  | invalidLocation (loc : Int × Int)
  | alreadyOccupied (loc : Int × Int) (contents : Char)
  deriving DecidableEq

/-- `TicTacToeState.move(loc, label)`: `KeyError` on the lookup becomes
`InvalidLocation`; a non-`None` cell raises `AlreadyOccupied` with the
occupant; otherwise a new state layering `{loc: label}` over the board is
returned and the receiver is untouched (immutability is structural here:
`setCell` builds a new list). -/
def TicTacToeState.move (s : TicTacToeState) (loc : Int × Int) (label : Char) :
    Except MoveErr TicTacToeState :=
  match lookup s.board loc with
  | none => .error (.invalidLocation loc)
  | some (some c) => .error (.alreadyOccupied loc c)
  | some none => .ok ⟨setCell s.board loc (some label)⟩

/-- `full(self) = all(data is not None for data in self.board.values())`. -/
def TicTacToeState.full (s : TicTacToeState) : Bool :=
  s.board.all (fun e => e.2.isSome)

/-- `victory(self)`: builds the check sets (main diagonal, anti-diagonal,
then each row and column) as filters of `self.board.keys()`, and tests
whether the set of values on some check set is a singleton other than
`{None}`. The Python set of values is embedded as a `Finset`. -/
def TicTacToeState.victory (s : TicTacToeState) : Bool :=
  let n : Int := (s.size : Int)
  let keys := s.board.map Prod.fst
  let checks : List (List (Int × Int)) :=
    [keys.filter (fun p => decide (p.1 = p.2)),
     keys.filter (fun p => decide (p.1 = n - 1 - p.2))]
      ++ (pyRange n).flatMap (fun i =>
           [keys.filter (fun p => decide (p.1 = i)),
            keys.filter (fun p => decide (p.2 = i))])
  checks.any (fun locs =>
    let values : Finset (Option Char) := (locs.map (getCell s)).toFinset
    decide (values.card = 1 ∧ values ≠ {none}))

/-- `game_over(self) = self.full() or self.victory()`. -/
def TicTacToeState.game_over (s : TicTacToeState) : Bool :=
  s.full || s.victory

/-! Spec-side definitions, written from the specification's words: the
candidate lines of an `n × n` board and what it means for a line to win.
These are compared with `TicTacToeState.victory` (translated from the
source) in the claim about winning-line determination. -/

/-- Spec: the main diagonal, the cells with `row == col`. -/
def mainDiag (n : Nat) : List (Int × Int) :=
  (pyRangeN n).map (fun i => (i, i))

/-- Spec: the anti-diagonal, the cells with `row == n - 1 - col`. -/
def antiDiag (n : Nat) : List (Int × Int) :=
  (pyRangeN n).map (fun c => ((n : Int) - 1 - c, c))

/-- Spec: the full row with index `i`. -/
def rowLine (n : Nat) (i : Int) : List (Int × Int) :=
  (pyRangeN n).map (fun c => (i, c))

/-- Spec: the full column with index `i`. -/
def colLine (n : Nat) (i : Int) : List (Int × Int) :=
  (pyRangeN n).map (fun r => (r, i))

/-- Spec: the candidate lines of a board of dimension `n` — the two
diagonals, every full row and every full column, and no other line. -/
def specLines (n : Nat) : List (List (Int × Int)) :=
  [mainDiag n, antiDiag n]
    ++ (pyRangeN n).map (rowLine n)
    ++ (pyRangeN n).map (colLine n)

/-- Spec: a line is uniformly occupied by a single non-empty label. -/
def lineUniform (s : TicTacToeState) (line : List (Int × Int)) : Prop :=
  ∃ c : Char, line ≠ [] ∧ ∀ loc ∈ line, getCell s loc = some c

/-- Spec: some candidate line of the `n × n` board wins. -/
def hasWinningLineSpec (s : TicTacToeState) (n : Nat) : Prop :=
  ∃ line ∈ specLines n, lineUniform s line

/-- The board's cell mapping covers exactly the `n × n` grid (the shape every
board constructed by `new`, or parsed from an `n`-line, `n`-column text,
has). -/
abbrev wellFormed (s : TicTacToeState) (n : Nat) : Prop :=
  s.board.map Prod.fst = gridKeys n

/-- Number of empty cells of a board (the termination measure of a match). -/
def emptyCount (s : TicTacToeState) : Nat :=
  (s.board.filter (fun e => e.2.isNone)).length

/-! The match driver: `GameOver` scores, `Forfeit`, and the `Game` class. -/

/-- One Python `dict` assignment `d[k] = v`: overwriting keeps the key's
position, a fresh key is appended. -/
def dictInsert (d : List (Char × Nat)) (k : Char) (v : Nat) : List (Char × Nat) :=
  if d.any (fun e => decide (e.1 = k)) then
    d.map (fun e => if e.1 = k then (k, v) else e)
  else
    d ++ [(k, v)]

/-- A Python dict comprehension over an ordered list of key-value pairs. -/
def dictOfPairs (l : List (Char × Nat)) : List (Char × Nat) :=
  l.foldl (fun d p => dictInsert d p.1 p.2) []

/-- `GameOver.victory(labels, winner)`: scores
`{label: int(label == winner) for label in labels}`. -/
def GameOver.victoryScores (labels : List Char) (winner : Char) : List (Char × Nat) :=
  dictOfPairs (labels.map (fun l => (l, if l = winner then 1 else 0)))

/-- `GameOver.draw(labels)`: scores `{label: 0 for label in labels}`. -/
def GameOver.drawScores (labels : List Char) : List (Char × Nat) :=
  dictOfPairs (labels.map (fun l => (l, 0)))

/-- A player, as the driver sees it: `get_move` may raise (modelled as
`Except.error` with the exception's message), and so may `observe`.
`setup` only stores the label on the player and is absorbed into the
closures. -/
structure PlayerM where
  getMove : TicTacToeState → Except String (Int × Int)
  observe : TicTacToeState → Char → (Int × Int) → TicTacToeState → Except String Unit

/-- The `Game` object: the growing list of board states, the players, their
labels, and the position of the `cycle(zip(players, labels))` iterator. -/
structure Game where
  states : List TicTacToeState
  players : List PlayerM
  labels : List Char
  turnIdx : Nat

/-- `self.states[-1]`; `states` is nonempty from construction on (Python
would raise `IndexError` otherwise). -/
def Game.currentState (g : Game) : TicTacToeState :=
  (g.states.getLast?).getD ⟨[]⟩

/-- The exception a `Forfeit` carries: either an arbitrary exception raised
by a player (`get_move` or `observe`), or a `MoveError` from the board. -/
inductive ForfeitReason where
  | exc (e : String)
  | moveErr (e : MoveErr)
  deriving DecidableEq

/-- What one call of `Game.move` does: raise `Forfeit(loser, reason)`, raise
`GameOver(scores)`, or return the advanced game. Each constructor carries the
driver state as of the raise/return (`states`/`turnIdx` mutations included).
`stop` models `StopIteration` from cycling an empty `zip(players, labels)`. -/
inductive StepResult where
  | forfeit (g : Game) (loserIdx : Nat) (reason : ForfeitReason)
  | gameOver (g : Game) (scores : List (Char × Nat))
  | next (g : Game)
  | stop

/-- The `for player in self.players: player.observe(...)` loop: index and
exception of the first observer that raises, if any (the loop's `player`
variable shadows the acting player, so the `Forfeit` names the observer). -/
def firstObserveFailureFrom (i : Nat) (ps : List PlayerM) (st : TicTacToeState)
    (label : Char) (mv : Int × Int) (st' : TicTacToeState) :
    Option (Nat × String) :=
  match ps with
  | [] => none
  | p :: rest =>
    match p.observe st label mv st' with
    | .error e => some (i, e)
    | .ok _ => firstObserveFailureFrom (i + 1) rest st label mv st'

/-- `Game.move`: draw the next `(player, label)` from the cycle, ask the
player for a move (any exception → `Forfeit`), apply it to the current state
(any `MoveError` → `Forfeit`), append the new state, notify observers, and
raise `GameOver` with victory or draw scores when the new state ends the
game. -/
def Game.move (g : Game) : StepResult :=
  let pairs := g.players.zip g.labels
  let k := g.turnIdx % pairs.length
  match pairs.get? k with
  | none => .stop
  | some (player, label) =>
    let g₁ : Game := { g with turnIdx := g.turnIdx + 1 }
    let state := g₁.currentState
    match player.getMove state with
    | .error e => .forfeit g₁ k (.exc e)
    | .ok mv =>
      match state.move mv label with
      | .error me => .forfeit g₁ k (.moveErr me)
      | .ok newState =>
        let g₂ : Game := { g₁ with states := g₁.states ++ [newState] }
        match firstObserveFailureFrom 0 g₂.players state label mv newState with
        | some (j, e) => .forfeit g₂ j (.exc e)
        | none =>
          if newState.game_over then
            if newState.victory then
              .gameOver g₂ (GameOver.victoryScores g₂.labels label)
            else
              .gameOver g₂ (GameOver.drawScores g₂.labels)
          else .next g₂

/-- The `Game.play` loop (`while True: self.move()` until `GameOver` returns
the scores), run with explicit fuel: `some scores` when the match reaches
`GameOver` within `fuel` turns, `none` when fuel runs out or a `Forfeit` /
`StopIteration` escapes the loop (the source lets those propagate). -/
def Game.playFuel : Nat → Game → Option (List (Char × Nat))
  | 0, _ => none
  | fuel + 1, g =>
    match g.move with
    | .gameOver _ scores => some scores
    | .next g' => Game.playFuel fuel g'
    | _ => none

/-! Concrete player stubs used by the witnesses. -/

/-- A deterministic stub player: proposes the first empty cell of the board
(in entry order) and never raises in `observe`. -/
def firstEmptyPlayer : PlayerM where
  getMove := fun s =>
    match s.board.find? (fun e => e.2.isNone) with
    | some e => .ok e.1
    | none => .error "no empty cell"
  observe := fun _ _ _ _ => .ok ()

/-- A stub player whose move selection always raises. -/
def failingPlayer : PlayerM where
  getMove := fun _ => .error "boom"
  observe := fun _ _ _ _ => .ok ()

/-- A stub player that always proposes the out-of-bounds cell `(99, 99)`. -/
def outOfBoundsPlayer : PlayerM where
  getMove := fun _ => .ok (99, 99)
  observe := fun _ _ _ _ => .ok ()

/-- A deterministic player that always proposes a legal move: on every board
with distinct keys that is not yet over, `get_move` returns (without raising)
a location holding an empty cell, and `observe` never raises. This is the
"deterministic, non-random move-selection stub" hypothesis of the full-match
scenario. -/
def LegalPlayer (p : PlayerM) : Prop :=
  (∀ s : TicTacToeState, (s.board.map Prod.fst).Nodup → s.game_over = false →
      ∃ mv, p.getMove s = .ok mv ∧ lookup s.board mv = some none)
    ∧ ∀ st lab mv st', p.observe st lab mv st' = .ok ()

/-! Concrete boards from the repository's own tests, used in witnesses. -/

def testBoard : TicTacToeState :=
  TicTacToeState.from_str [['x', 'o', 'x'], ['o', 'x', 'o'], ['o', 'x', '.']]

def fullBoard : TicTacToeState :=
  TicTacToeState.from_str [['x', 'o', 'x'], ['o', 'x', 'o'], ['o', 'x', 'x']]

def problemBoard : TicTacToeState :=
  TicTacToeState.from_str [['o', '.', '.'], ['x', 'o', 'x'], ['.', 'x', '.']]

end TTT

namespace TTT

/- Sanity checks against the repository's own tests. -/

example : testBoard.full = false := by decide
example : testBoard.victory = false := by decide
example : testBoard.game_over = false := by decide
example : fullBoard.full = true := by decide
example : fullBoard.victory = true := by decide
example : fullBoard.game_over = true := by decide
example : problemBoard.full = false := by decide
example : problemBoard.victory = false := by decide
example : problemBoard.game_over = false := by decide
example : testBoard.move (2, 2) 'x' = .ok fullBoard := rfl
example : testBoard.render = [['x', 'o', 'x'], ['o', 'x', 'o'], ['o', 'x', '.']] := by
  decide

/-! Helper lemmas: `isqrt` is the integer square root. -/

theorem isqrtAux_eq_sqrt (n : Nat) : ∀ m, Nat.sqrt n ≤ m → isqrtAux n m = Nat.sqrt n := by
  intro m
  induction m with
  | zero =>
    intro h
    simp only [isqrtAux]
    omega
  | succ m ih =>
    intro h
    simp only [isqrtAux]
    by_cases hle : (m + 1) * (m + 1) ≤ n
    · have : m + 1 ≤ Nat.sqrt n := Nat.le_sqrt.mpr hle
      simp only [if_pos hle]
      omega
    · have : ¬ (m + 1 ≤ Nat.sqrt n) := fun hc => hle (Nat.le_sqrt.mp hc)
      simp only [if_neg hle]
      exact ih (by omega)

theorem isqrt_eq_sqrt (n : Nat) : isqrt n = Nat.sqrt n :=
  isqrtAux_eq_sqrt n n (Nat.sqrt_le_self n)

theorem isqrt_mul_self (n : Nat) : isqrt (n * n) = n := by
  rw [isqrt_eq_sqrt, Nat.sqrt_eq]

/-! Helper lemmas: ranges and grid keys. -/

theorem mem_pyRangeN {n : Nat} {x : Int} : x ∈ pyRangeN n ↔ 0 ≤ x ∧ x < n := by
  simp only [pyRangeN, List.mem_map, List.mem_range]
  constructor
  · rintro ⟨k, hk, rfl⟩
    omega
  · rintro ⟨h0, hn⟩
    exact ⟨x.toNat, by omega, by omega⟩

theorem length_pyRangeN (n : Nat) : (pyRangeN n).length = n := by
  rw [pyRangeN, List.length_map, List.length_range]

theorem nodup_pyRangeN (n : Nat) : (pyRangeN n).Nodup :=
  (List.nodup_range n).map (fun a b h => by exact_mod_cast h)

theorem gridKeys_eq_product (n : Nat) : gridKeys n = (pyRangeN n) ×ˢ (pyRangeN n) :=
  rfl

theorem mem_gridKeys {n : Nat} {p : Int × Int} :
    p ∈ gridKeys n ↔ 0 ≤ p.1 ∧ p.1 < n ∧ 0 ≤ p.2 ∧ p.2 < n := by
  obtain ⟨r, c⟩ := p
  rw [gridKeys_eq_product]
  simp only [List.mem_product, mem_pyRangeN]
  tauto

theorem length_gridKeys (n : Nat) : (gridKeys n).length = n * n := by
  rw [gridKeys_eq_product, List.length_product, length_pyRangeN]

theorem nodup_gridKeys (n : Nat) : (gridKeys n).Nodup := by
  rw [gridKeys_eq_product]
  exact List.Nodup.product (nodup_pyRangeN n) (nodup_pyRangeN n)

/-! Helper lemmas: `lookup` and `setCell` on association-list boards. -/

theorem lookup_nil (loc : Int × Int) : lookup [] loc = none :=
  rfl

theorem lookup_cons (e : (Int × Int) × Option Char) (b : Board) (loc : Int × Int) :
    lookup (e :: b) loc = if e.1 = loc then some e.2 else lookup b loc := by
  by_cases h : e.1 = loc
  · simp [lookup, List.find?_cons_of_pos, h]
  · simp [lookup, List.find?_cons_of_neg, h]

theorem lookup_eq_none_iff (b : Board) (loc : Int × Int) :
    lookup b loc = none ↔ loc ∉ b.map Prod.fst := by
  induction b with
  | nil => simp [lookup_nil]
  | cons e t ih =>
    rw [lookup_cons]
    by_cases h : e.1 = loc
    · simp [h]
    · simp [h, ih, Ne.symm h]

theorem lookup_of_mem_nodup (b : Board) (e : (Int × Int) × Option Char)
    (hmem : e ∈ b) (hn : (b.map Prod.fst).Nodup) : lookup b e.1 = some e.2 := by
  induction b with
  | nil => cases hmem
  | cons a t ih =>
    simp only [List.map_cons, List.nodup_cons] at hn
    rw [lookup_cons]
    rcases List.mem_cons.mp hmem with h | h
    · subst h
      simp
    · have hne : a.1 ≠ e.1 := fun hc => hn.1 (hc ▸ List.mem_map_of_mem Prod.fst h)
      rw [if_neg hne]
      exact ih h hn.2

theorem setCell_cons (e : (Int × Int) × Option Char) (t : Board) (loc : Int × Int)
    (v : Option Char) :
    setCell (e :: t) loc v = (if e.1 = loc then (e.1, v) else e) :: setCell t loc v := by
  simp [setCell]

theorem setCell_map_fst (b : Board) (loc : Int × Int) (v : Option Char) :
    (setCell b loc v).map Prod.fst = b.map Prod.fst := by
  induction b with
  | nil => rfl
  | cons e t ih =>
    by_cases h : e.1 = loc
    · simpa [setCell, h] using ih
    · simpa [setCell, h] using ih

theorem setCell_of_not_mem (b : Board) (loc : Int × Int) (v : Option Char)
    (h : loc ∉ b.map Prod.fst) : setCell b loc v = b := by
  induction b with
  | nil => rfl
  | cons e t ih =>
    simp only [List.map_cons, List.mem_cons] at h
    push_neg at h
    simp only [setCell, List.map_cons]
    rw [if_neg (fun hc => h.1 hc.symm)]
    have := ih h.2
    simp only [setCell] at this
    rw [this]

theorem lookup_setCell_self (b : Board) (loc : Int × Int) (v : Option Char)
    (h : loc ∈ b.map Prod.fst) : lookup (setCell b loc v) loc = some v := by
  induction b with
  | nil => cases h
  | cons e t ih =>
    simp only [setCell, List.map_cons] at h ⊢
    by_cases he : e.1 = loc
    · rw [if_pos he, lookup_cons, if_pos he]
    · rw [if_neg he, lookup_cons, if_neg he]
      rcases List.mem_cons.mp h with hc | hc
      · exact absurd hc.symm he
      · exact ih hc

theorem lookup_setCell_other (b : Board) (loc loc' : Int × Int) (v : Option Char)
    (h : loc' ≠ loc) : lookup (setCell b loc v) loc' = lookup b loc' := by
  induction b with
  | nil => rfl
  | cons e t ih =>
    rw [setCell_cons]
    by_cases he : e.1 = loc
    · rw [if_pos he, lookup_cons, lookup_cons]
      have hne : e.1 ≠ loc' := fun hc => h (hc.symm.trans he)
      rw [if_neg (by simpa using hne), if_neg hne]
      exact ih
    · rw [if_neg he, lookup_cons, lookup_cons]
      by_cases hc : e.1 = loc'
      · rw [if_pos hc, if_pos hc]
      · rw [if_neg hc, if_neg hc]
        exact ih

theorem emptyCount_setCell (b : Board) (loc : Int × Int) (lab : Char)
    (hn : (b.map Prod.fst).Nodup) (hl : lookup b loc = some none) :
    emptyCount ⟨b⟩ = emptyCount ⟨setCell b loc (some lab)⟩ + 1 := by
  induction b with
  | nil => simp [lookup_nil] at hl
  | cons e t ih =>
    rw [lookup_cons] at hl
    simp only [List.map_cons, List.nodup_cons] at hn
    rw [setCell_cons]
    by_cases he : e.1 = loc
    · rw [if_pos he] at hl ⊢
      have hv : e.2 = none := by injection hl
      have hnm : loc ∉ t.map Prod.fst := he ▸ hn.1
      rw [setCell_of_not_mem t loc (some lab) hnm]
      simp only [emptyCount, List.filter_cons, hv]
      simp
    · rw [if_neg he] at hl ⊢
      have := ih hn.2 hl
      simp only [emptyCount, List.filter_cons] at this ⊢
      cases hne : e.2.isNone <;>
        simp only [hne, Bool.false_eq_true, if_true, if_false, List.length_cons] at this ⊢ <;>
        omega

theorem lookup_pairNone (l : List (Int × Int)) (loc : Int × Int) (h : loc ∈ l) :
    lookup (l.map (fun x => (x, (none : Option Char)))) loc = some none := by
  induction l with
  | nil => cases h
  | cons a t ih =>
    rw [List.map_cons, lookup_cons]
    by_cases ha : a = loc
    · simp [ha]
    · rcases List.mem_cons.mp h with hc | hc
      · exact absurd hc.symm ha
      · simpa [ha] using ih hc

theorem lookup_pairNone_not_mem (l : List (Int × Int)) (loc : Int × Int) (h : loc ∉ l) :
    lookup (l.map (fun x => (x, (none : Option Char)))) loc = none := by
  rw [lookup_eq_none_iff]
  simpa [List.map_map] using h

/-! Helper lemmas: Python dict comprehension over pairs with distinct keys. -/

theorem foldl_dictInsert (l acc : List (Char × Nat))
    (h : ((acc ++ l).map Prod.fst).Nodup) :
    List.foldl (fun d p => dictInsert d p.1 p.2) acc l = acc ++ l := by
  induction l generalizing acc with
  | nil => simp
  | cons p t ih =>
    have hnm : p.1 ∉ acc.map Prod.fst := by
      intro hc
      simp only [List.map_append, List.map_cons, List.nodup_append] at h
      exact h.2.2 hc (by simp)
    have hany : acc.any (fun e => decide (e.1 = p.1)) = false := by
      simp only [List.any_eq_false]
      intro e he
      simp only [decide_eq_true_eq]
      intro hc
      exact hnm (hc ▸ List.mem_map_of_mem Prod.fst he)
    simp only [List.foldl_cons]
    rw [show dictInsert acc p.1 p.2 = acc ++ [p] by
      simp [dictInsert, hany]]
    rw [ih (acc ++ [p]) (by simpa using h)]
    simp

theorem dictOfPairs_nodup (l : List (Char × Nat)) (h : (l.map Prod.fst).Nodup) :
    dictOfPairs l = l := by
  unfold dictOfPairs
  simpa using foldl_dictInsert l [] (by simpa using h)

theorem full_iff_emptyCount (b : Board) :
    TicTacToeState.full ⟨b⟩ = true ↔ emptyCount ⟨b⟩ = 0 := by
  simp only [TicTacToeState.full, emptyCount, List.all_eq_true, List.length_eq_zero,
    List.filter_eq_nil_iff]
  constructor
  · intro h e he
    have := h e he
    revert this
    cases e.2 <;> simp
  · intro h e he
    have := h e he
    revert this
    cases e.2 <;> simp

/-! Helper lemmas: the dict built by `from_str` and its lookups. -/

theorem boardFrom_cons (k : Nat) (line : List Char) (rest : List (List Char)) :
    boardFrom k (line :: rest) = rowEntriesFrom k 0 line ++ boardFrom (k + 1) rest := by
  simp [boardFrom, List.enumFrom_cons]

theorem length_rowEntriesFrom (r j : Nat) (line : List Char) :
    (rowEntriesFrom r j line).length = line.length := by
  simp [rowEntriesFrom]

theorem length_boardFrom : ∀ (k : Nat) (lines : List (List Char)),
    (boardFrom k lines).length = (lines.map List.length).sum := by
  intro k ls
  induction ls generalizing k with
  | nil => rfl
  | cons line t ih =>
    rw [boardFrom_cons]
    simp only [List.length_append, List.map_cons, List.sum_cons,
      length_rowEntriesFrom, ih (k + 1)]

theorem lookup_append_of_some (b₁ b₂ : Board) (loc : Int × Int) (v : Option Char)
    (h : lookup b₁ loc = some v) : lookup (b₁ ++ b₂) loc = some v := by
  simp only [lookup, List.find?_append] at h ⊢
  cases hf : b₁.find? (fun e => decide (e.1 = loc)) with
  | none => rw [hf] at h; cases h
  | some e => rw [hf] at h; simpa [Option.or] using h

theorem lookup_append_of_none (b₁ b₂ : Board) (loc : Int × Int)
    (h : lookup b₁ loc = none) : lookup (b₁ ++ b₂) loc = lookup b₂ loc := by
  simp only [lookup, List.find?_append] at h ⊢
  cases hf : b₁.find? (fun e => decide (e.1 = loc)) with
  | none => simp [Option.or]
  | some e => rw [hf] at h; cases h

theorem lookup_rowEntriesFrom_ne (r j : Nat) (line : List Char) (key : Int × Int)
    (h : key.1 ≠ (r : Int)) : lookup (rowEntriesFrom r j line) key = none := by
  rw [lookup_eq_none_iff]
  intro hc
  simp only [rowEntriesFrom, List.map_map, List.mem_map, Function.comp_def] at hc
  obtain ⟨p, _, hp⟩ := hc
  exact h (by rw [← hp])

theorem lookup_rowEntriesFrom (r : Nat) (ln : List Char) :
    ∀ j c, lookup (rowEntriesFrom r j ln) ((r : Int), ((j + c : Nat) : Int))
      = (ln[c]?).map cellVal := by
  induction ln with
  | nil =>
    intro j c
    simp [rowEntriesFrom, lookup_nil]
  | cons ch rest ih =>
    intro j c
    rw [show rowEntriesFrom r j (ch :: rest)
        = (((r : Int), (j : Int)), cellVal ch) :: rowEntriesFrom r (j + 1) rest from by
      simp [rowEntriesFrom, List.enumFrom_cons]]
    rw [lookup_cons]
    cases c with
    | zero => simp
    | succ c' =>
      have hne : (((r : Int), (j : Int)) : Int × Int) ≠ ((r : Int), ((j + (c' + 1) : Nat) : Int)) := by
        simp only [ne_eq, Prod.mk.injEq, not_and]
        intro _
        push_cast
        omega
      rw [if_neg hne]
      have h := ih (j + 1) c'
      rw [show (j + 1) + c' = j + (c' + 1) from by omega] at h
      simpa using h

theorem lookup_boardFrom_lt (lines : List (List Char)) :
    ∀ (k : Nat) (key : Int × Int), key.1 < (k : Int) →
      lookup (boardFrom k lines) key = none := by
  induction lines with
  | nil => intro k key _; rfl
  | cons line rest ih =>
    intro k key hk
    rw [boardFrom_cons,
      lookup_append_of_none _ _ _ (lookup_rowEntriesFrom_ne k 0 line key (by omega))]
    exact ih (k + 1) key (by push_cast; omega)

theorem lookup_boardFrom (lines : List (List Char)) :
    ∀ (k r c : Nat), lookup (boardFrom k lines) (((k + r : Nat) : Int), ((c : Nat) : Int))
      = (lines[r]?).bind (fun ln => (ln[c]?).map cellVal) := by
  induction lines with
  | nil =>
    intro k r c
    simp [boardFrom, lookup_nil]
  | cons ln rest ih =>
    intro k r c
    rw [boardFrom_cons]
    cases r with
    | zero =>
      have h1 := lookup_rowEntriesFrom k ln 0 c
      simp only [Nat.zero_add] at h1
      simp only [Nat.add_zero]
      cases hg : ln[c]? with
      | some ch =>
        rw [lookup_append_of_some _ _ _ _ (by rw [h1, hg]; rfl)]
        simp [hg]
      | none =>
        rw [lookup_append_of_none _ _ _ (by rw [h1, hg]; rfl)]
        rw [lookup_boardFrom_lt rest (k + 1) _ (by push_cast; omega)]
        simp [hg]
    | succ r' =>
      rw [lookup_append_of_none _ _ _
        (lookup_rowEntriesFrom_ne k 0 ln _ (by
          simp only [ne_eq]
          push_cast
          omega))]
      have h := ih (k + 1) r' c
      rw [show (k + 1) + r' = k + (r' + 1) from by omega] at h
      simpa using h

theorem lookup_from_str (lines : List (List Char)) (r c : Nat) :
    lookup (TicTacToeState.from_str lines).board ((r : Int), (c : Int))
      = (lines[r]?).bind (fun ln => (ln[c]?).map cellVal) := by
  have h := lookup_boardFrom lines 0 r c
  simpa using h

theorem size_from_str (lines : List (List Char)) (n : Nat)
    (hn : lines.length = n) (hl : ∀ line ∈ lines, line.length = n) :
    (TicTacToeState.from_str lines).size = n := by
  have hmap : lines.map List.length = List.replicate n n := by
    apply List.eq_replicate_iff.mpr
    refine ⟨by simpa using hn, ?_⟩
    intro b hb
    obtain ⟨line, hline, rfl⟩ := List.mem_map.mp hb
    exact hl line hline
  have hlen : (TicTacToeState.from_str lines).board.length = n * n := by
    show (boardFrom 0 lines).length = n * n
    rw [length_boardFrom, hmap]
    simp [List.sum_replicate, smul_eq_mul]
  show isqrt (TicTacToeState.from_str lines).board.length = n
  rw [hlen, isqrt_mul_self]

theorem getElem_pyRangeN (n r : Nat) (hr : r < (pyRangeN n).length) :
    (pyRangeN n).get ⟨r, hr⟩ = (r : Int) := by
  simp [pyRangeN]

theorem render_from_str (lines : List (List Char)) (n : Nat)
    (hn : lines.length = n) (hl : ∀ ln ∈ lines, ln.length = n) :
    (TicTacToeState.from_str lines).render = lines := by
  have hsize := size_from_str lines n hn hl
  apply List.ext_getElem
  · simp [TicTacToeState.render, hsize, length_pyRangeN, hn]
  · intro r hr1 hr2
    have hrn : r < n := by
      simpa [TicTacToeState.render, hsize, length_pyRangeN] using hr1
    simp only [TicTacToeState.render, hsize, List.getElem_map, pyRangeN,
      List.getElem_range]
    apply List.ext_getElem
    · rw [List.length_map, List.length_map, List.length_range]
      exact (hl (lines[r]) (List.getElem_mem hr2)).symm
    · intro c hc1 hc2
      have hcn : c < n := by
        simpa using hc1
      simp only [List.getElem_map, List.getElem_range]
      have hlook := lookup_from_str lines r c
      rw [List.getElem?_eq_getElem hr2] at hlook
      have hcr : c < (lines[r]).length := by
        rw [hl (lines[r]) (List.getElem_mem hr2)]
        exact hcn
      rw [Option.some_bind, List.getElem?_eq_getElem hcr, Option.map_some'] at hlook
      show (match getCell (TicTacToeState.from_str lines) ((r : Int), (c : Int)) with
        | some ch => ch
        | none => '.') = lines[r][c]
      have hget : getCell (TicTacToeState.from_str lines) ((r : Int), (c : Int))
          = cellVal (lines[r][c]) := by
        simp [getCell, hlook]
      rw [hget]
      by_cases hch : lines[r][c] = '.'
      · simp [cellVal, hch]
      · simp [cellVal, hch]

/-! Claims C2, C3, C5, C6, C9. -/

/-- Claim C2: for every board, every location that is in bounds and currently
empty, and every label, `move` succeeds and returns a new board whose cells
equal the original's except that the location now holds the label. The
original board is a value and is not mutated by the call (immutability is
structural in this embedding: `move` builds a new cell list and leaves the
receiver untouched). -/
theorem claim_C2 (s : TicTacToeState) (loc : Int × Int) (label : Char)
    (h : lookup s.board loc = some none) :
    ∃ s' : TicTacToeState, s.move loc label = .ok s'
      ∧ lookup s'.board loc = some (some label)
      ∧ ∀ loc', loc' ≠ loc → lookup s'.board loc' = lookup s.board loc' := by
  have hmem : loc ∈ s.board.map Prod.fst := by
    by_contra hc
    rw [(lookup_eq_none_iff s.board loc).mpr hc] at h
    cases h
  refine ⟨⟨setCell s.board loc (some label)⟩, ?_, ?_, ?_⟩
  · simp [TicTacToeState.move, h]
  · exact lookup_setCell_self s.board loc (some label) hmem
  · intro loc' hne
    exact lookup_setCell_other s.board loc loc' (some label) hne

/-- Witness for C2 on the repository's own test board: the pending cell
`(2, 2)` is empty, the move succeeds, writes `x` there and leaves `(0, 0)`
as it was. -/
theorem claim_C2_witness :
    lookup testBoard.board (2, 2) = some none ∧
      ∃ s', testBoard.move (2, 2) 'x' = .ok s'
        ∧ lookup s'.board (2, 2) = some (some 'x')
        ∧ lookup s'.board (0, 0) = lookup testBoard.board (0, 0) := by
  refine ⟨by decide, ?_⟩
  obtain ⟨s', h1, h2, h3⟩ := claim_C2 testBoard (2, 2) 'x' (by decide)
  exact ⟨s', h1, h2, h3 (0, 0) (by decide)⟩

/-- Claim C3: on a well-formed `n × n` board, `move` fails with
`InvalidLocation` exactly when the location is outside the recorded cell set
(the `n × n` grid fixed at construction), fails with `AlreadyOccupied`
carrying the existing occupant exactly when the location is in bounds and
the cell is non-empty, and succeeds otherwise. -/
theorem claim_C3 (s : TicTacToeState) (n : Nat) (loc : Int × Int) (label : Char)
    (hw : wellFormed s n) :
    (s.move loc label = .error (.invalidLocation loc) ↔ loc ∉ gridKeys n)
    ∧ (∀ c, s.move loc label = .error (.alreadyOccupied loc c)
        ↔ loc ∈ gridKeys n ∧ getCell s loc = some c)
    ∧ ((∃ s', s.move loc label = .ok s') ↔ loc ∈ gridKeys n ∧ getCell s loc = none) := by
  have hmem : loc ∈ s.board.map Prod.fst ↔ loc ∈ gridKeys n := by rw [hw]
  cases hl : lookup s.board loc with
  | none =>
    have hnm : loc ∉ gridKeys n := fun hc =>
      absurd hl (by rw [lookup_eq_none_iff, hw]; simpa using hc)
    refine ⟨?_, ?_, ?_⟩
    · simp [TicTacToeState.move, hl, hnm]
    · intro c
      simp [TicTacToeState.move, hl, hnm]
    · simp [TicTacToeState.move, hl, hnm]
  | some v =>
    have hin : loc ∈ gridKeys n := by
      rw [← hmem]
      by_contra hc
      rw [(lookup_eq_none_iff s.board loc).mpr hc] at hl
      cases hl
    have hg : getCell s loc = v := by simp [getCell, hl]
    cases v with
    | none =>
      refine ⟨?_, ?_, ?_⟩
      · simp [TicTacToeState.move, hl, hin]
      · intro c
        simp [TicTacToeState.move, hl, hin, hg]
      · simp [TicTacToeState.move, hl, hin, hg]
    | some c0 =>
      refine ⟨?_, ?_, ?_⟩
      · simp [TicTacToeState.move, hl, hin]
      · intro c
        simp [TicTacToeState.move, hl, hin, hg]
      · simp [TicTacToeState.move, hl, hin, hg]

/-- Witness for C3: on the test board, an out-of-grid location raises
`InvalidLocation`, the occupied corner raises `AlreadyOccupied` with its
occupant `x`, and the empty cell `(2, 2)` accepts a move. -/
theorem claim_C3_witness :
    wellFormed testBoard 3
    ∧ testBoard.move (9, 9) 'x' = .error (.invalidLocation (9, 9))
    ∧ testBoard.move (0, 0) 'o' = .error (.alreadyOccupied (0, 0) 'x')
    ∧ ∃ s', testBoard.move (2, 2) 'x' = .ok s' := by
  refine ⟨by decide, ?_, ?_, ?_⟩
  · exact ((claim_C3 testBoard 3 (9, 9) 'x' (by decide)).1).mpr (by decide)
  · exact ((claim_C3 testBoard 3 (0, 0) 'o' (by decide)).2.1 'x').mpr (by decide)
  · exact ((claim_C3 testBoard 3 (2, 2) 'x' (by decide)).2.2).mpr (by decide)

/-- Counterexample to claim C5 as stated: `new(0)` (and `new(-1)`) does not
fail — `range(size)` is empty for `size ≤ 0`, so the constructor silently
returns a board with no cells. -/
theorem claim_C5_counterexample :
    (TicTacToeState.new 0).board = [] ∧ (TicTacToeState.new (-1)).board = [] := by
  constructor <;> rfl

/-- Claim C5 as amended: `new(size)` never fails; for `size ≤ 0` it returns
a board with no locations, and for `size > 0` a board with all `size²`
locations set to empty. -/
theorem claim_C5 (size : Int) :
    (size ≤ 0 → (TicTacToeState.new size).board = [])
    ∧ (0 < size →
        (TicTacToeState.new size).board.length = size.toNat * size.toNat
        ∧ ∀ loc ∈ gridKeys size.toNat,
            lookup (TicTacToeState.new size).board loc = some none) := by
  constructor
  · intro h
    have h0 : size.toNat = 0 := by omega
    simp [TicTacToeState.new, h0, gridKeys, pyRangeN]
  · intro _
    constructor
    · simp [TicTacToeState.new, length_gridKeys]
    · intro loc hloc
      exact lookup_pairNone (gridKeys size.toNat) loc hloc

/-- Witness for C5 (amended): evaluated at sizes `0` and `3`. -/
theorem claim_C5_witness :
    (TicTacToeState.new 0).board = []
    ∧ (TicTacToeState.new 3).board.length = (3 : Int).toNat * (3 : Int).toNat
    ∧ lookup (TicTacToeState.new 3).board (1, 2) = some none :=
  ⟨(claim_C5 0).1 (by decide),
   ((claim_C5 3).2 (by decide)).1,
   ((claim_C5 3).2 (by decide)).2 (1, 2) (by decide)⟩

/-- Counterexample to claim C6 as stated: `from_str` performs no validation.
On the ragged input `"xy / z"` (line lengths 2 and 1, total cell count 3,
not a perfect square) it succeeds and returns a 3-cell board instead of
failing. -/
theorem claim_C6_counterexample :
    (TicTacToeState.from_str [['x', 'y'], ['z']]).board
      = [((0, 0), some 'x'), ((0, 1), some 'y'), ((1, 0), some 'z')] := by
  rfl

/-- Claim C6 as amended: `from_str` is total — it accepts every line list
(consistent or not) and returns a board with one cell per input character,
with no construction-time check. -/
theorem claim_C6 (lines : List (List Char)) :
    (TicTacToeState.from_str lines).board.length = (lines.map List.length).sum :=
  length_boardFrom 0 lines

/-- Claim C9: with distinct labels and a winner drawn from them,
`GameOver.victory` maps the labels in order to score 1 for the winner and 0
for everyone else, and `GameOver.draw` maps every label to 0 — one score
entry per label in both cases. -/
theorem claim_C9 (labels : List Char) (winner : Char)
    (hn : labels.Nodup) (hw : winner ∈ labels) :
    GameOver.victoryScores labels winner
        = labels.map (fun l => (l, if l = winner then 1 else 0))
    ∧ (winner, 1) ∈ GameOver.victoryScores labels winner
    ∧ (∀ p ∈ GameOver.victoryScores labels winner, p.1 ≠ winner → p.2 = 0)
    ∧ (GameOver.victoryScores labels winner).map Prod.fst = labels
    ∧ GameOver.drawScores labels = labels.map (fun l => (l, 0))
    ∧ (∀ p ∈ GameOver.drawScores labels, p.2 = 0)
    ∧ (GameOver.drawScores labels).map Prod.fst = labels := by
  have hv : GameOver.victoryScores labels winner
      = labels.map (fun l => (l, if l = winner then 1 else 0)) := by
    unfold GameOver.victoryScores
    apply dictOfPairs_nodup
    simpa [List.map_map, Function.comp_def] using hn
  have hd : GameOver.drawScores labels = labels.map (fun l => (l, 0)) := by
    unfold GameOver.drawScores
    apply dictOfPairs_nodup
    simpa [List.map_map, Function.comp_def] using hn
  refine ⟨hv, ?_, ?_, ?_, hd, ?_, ?_⟩
  · rw [hv]
    have := List.mem_map_of_mem (fun l => (l, if l = winner then 1 else 0)) hw
    simpa using this
  · intro p hp hne
    rw [hv] at hp
    obtain ⟨l, _, rfl⟩ := List.mem_map.mp hp
    simp only at hne
    simp [hne]
  · rw [hv]
    simp [List.map_map, Function.comp_def]
  · intro p hp
    rw [hd] at hp
    obtain ⟨l, _, rfl⟩ := List.mem_map.mp hp
    rfl
  · rw [hd]
    simp [List.map_map, Function.comp_def]

/-- Witness for C9 with the default two-player labels and winner `x`. -/
theorem claim_C9_witness :
    GameOver.victoryScores ['x', 'o'] 'x' = [('x', 1), ('o', 0)]
    ∧ GameOver.drawScores ['x', 'o'] = [('x', 0), ('o', 0)] := by
  have h := claim_C9 ['x', 'o'] 'x' (by decide) (by decide)
  exact ⟨h.1.trans (by decide), h.2.2.2.2.1.trans (by decide)⟩

/-- Claim C4: rendering round-trips with parsing. For every well-formed
square board text (`n` lines of `n` cells each), rendering the parsed board
reproduces the grid exactly, and parsing the rendered board gives a board
equal to the parsed original. -/
theorem claim_C4 (lines : List (List Char)) (n : Nat)
    (hn : lines.length = n) (hl : ∀ ln ∈ lines, ln.length = n) :
    (TicTacToeState.from_str lines).render = lines
    ∧ TicTacToeState.from_str ((TicTacToeState.from_str lines).render)
        = TicTacToeState.from_str lines := by
  have h := render_from_str lines n hn hl
  exact ⟨h, by rw [h]⟩

/-- Witness for C4 on the repository's test grid. -/
theorem claim_C4_witness :
    testBoard.render = [['x', 'o', 'x'], ['o', 'x', 'o'], ['o', 'x', '.']]
    ∧ TicTacToeState.from_str testBoard.render = testBoard := by
  have h := claim_C4 [['x', 'o', 'x'], ['o', 'x', 'o'], ['o', 'x', '.']] 3
    (by decide) (by decide)
  exact ⟨h.1, by rw [show testBoard.render = _ from h.1]; exact h.2.symm ▸ rfl⟩

/-! Claims C7 and C10: the driver's handling of failed turns. -/

/-- Claim C7: when the active player's move selection raises, or the chosen
move raises a `MoveError` (invalid location or occupied cell), `Game.move`
raises `Forfeit` attributed to the acting player (the index drawn from the
turn cycle) and the match ends there: the result is the `Forfeit`, not a
retry or a continued turn. -/
theorem claim_C7 (g : Game) (p : PlayerM) (label : Char)
    (hp : (g.players.zip g.labels).get? (g.turnIdx % (g.players.zip g.labels).length)
        = some (p, label)) :
    (∀ e, p.getMove g.currentState = .error e →
        g.move = .forfeit { g with turnIdx := g.turnIdx + 1 }
          (g.turnIdx % (g.players.zip g.labels).length) (.exc e))
    ∧ ∀ mv me, p.getMove g.currentState = .ok mv →
        g.currentState.move mv label = .error me →
        g.move = .forfeit { g with turnIdx := g.turnIdx + 1 }
          (g.turnIdx % (g.players.zip g.labels).length) (.moveErr me) := by
  constructor
  · intro e he
    simp only [Game.currentState] at he
    simp only [List.get?_eq_getElem?, List.length_zip] at hp
    simp [Game.move, Game.currentState, hp, he]
  · intro mv me h1 h2
    simp only [Game.currentState] at h1 h2
    simp only [List.get?_eq_getElem?, List.length_zip] at hp
    simp [Game.move, Game.currentState, hp, h1, h2]

/-- Witness for C7: a single-player game whose player raises during move
selection forfeits that player immediately. -/
theorem claim_C7_witness :
    Game.move ⟨[TicTacToeState.new 3], [failingPlayer], ['x'], 0⟩
      = .forfeit ⟨[TicTacToeState.new 3], [failingPlayer], ['x'], 1⟩ 0 (.exc "boom") :=
  (claim_C7 ⟨[TicTacToeState.new 3], [failingPlayer], ['x'], 0⟩ failingPlayer 'x' rfl).1
    "boom" rfl

/-- Claim C10: when `Game.move` forfeits because move selection raised or the
move raised a `MoveError`, no new board state has been appended — the driver
state carried by the `Forfeit` has exactly the original `states` list, so the
current board is unchanged. -/
theorem claim_C10 (g : Game) (p : PlayerM) (label : Char)
    (hp : (g.players.zip g.labels).get? (g.turnIdx % (g.players.zip g.labels).length)
        = some (p, label)) :
    (∀ e, p.getMove g.currentState = .error e →
        ∃ g' r, g.move = .forfeit g' (g.turnIdx % (g.players.zip g.labels).length) r
          ∧ g'.states = g.states)
    ∧ ∀ mv me, p.getMove g.currentState = .ok mv →
        g.currentState.move mv label = .error me →
        ∃ g' r, g.move = .forfeit g' (g.turnIdx % (g.players.zip g.labels).length) r
          ∧ g'.states = g.states := by
  constructor
  · intro e he
    refine ⟨{ g with turnIdx := g.turnIdx + 1 }, .exc e, ?_, rfl⟩
    simp only [Game.currentState] at he
    simp only [List.get?_eq_getElem?, List.length_zip] at hp
    simp [Game.move, Game.currentState, hp, he]
  · intro mv me h1 h2
    refine ⟨{ g with turnIdx := g.turnIdx + 1 }, .moveErr me, ?_, rfl⟩
    simp only [Game.currentState] at h1 h2
    simp only [List.get?_eq_getElem?, List.length_zip] at hp
    simp [Game.move, Game.currentState, hp, h1, h2]

/-- Witness for C10: a player proposing the out-of-bounds move `(99, 99)`
forfeits and the board history is left as it was. -/
theorem claim_C10_witness :
    ∃ g' r,
      Game.move ⟨[TicTacToeState.new 3], [outOfBoundsPlayer], ['x'], 0⟩
          = .forfeit g' 0 r
        ∧ g'.states = [TicTacToeState.new 3] :=
  (claim_C10 ⟨[TicTacToeState.new 3], [outOfBoundsPlayer], ['x'], 0⟩
      outOfBoundsPlayer 'x' rfl).2 (99, 99) (.invalidLocation (99, 99)) rfl rfl

/-! Claim C1: the winning-line check agrees with the spec's enumeration of
candidate lines. -/

theorem size_of_wellFormed (s : TicTacToeState) (n : Nat) (hw : wellFormed s n) :
    s.size = n := by
  show isqrt s.board.length = n
  have hlen : s.board.length = n * n := by
    have h := congrArg List.length hw
    simpa [length_gridKeys] using h
  rw [hlen, isqrt_mul_self]

theorem toFinset_singleton_iff (l : List (Option Char)) :
    (l.toFinset.card = 1 ∧ l.toFinset ≠ {none})
      ↔ ∃ c : Char, l ≠ [] ∧ ∀ x ∈ l, x = some c := by
  constructor
  · rintro ⟨hcard, hns⟩
    obtain ⟨v, hv⟩ := Finset.card_eq_one.mp hcard
    have hvl : v ∈ l := List.mem_toFinset.mp (hv ▸ Finset.mem_singleton_self v)
    have hall : ∀ x ∈ l, x = v := fun x hx =>
      Finset.mem_singleton.mp (hv ▸ List.mem_toFinset.mpr hx)
    cases v with
    | none => exact absurd hv hns
    | some c => exact ⟨c, List.ne_nil_of_mem hvl, hall⟩
  · rintro ⟨c, hne, hall⟩
    obtain ⟨x, hx⟩ := List.exists_mem_of_ne_nil l hne
    have htf : l.toFinset = {some c} := by
      apply Finset.eq_singleton_iff_unique_mem.mpr
      exact ⟨List.mem_toFinset.mpr ((hall x hx) ▸ hx),
        fun y hy => hall y (List.mem_toFinset.mp hy)⟩
    rw [htf]
    simp

theorem checkWins_iff (s : TicTacToeState) (locs : List (Int × Int)) :
    ((locs.map (getCell s)).toFinset.card = 1
        ∧ (locs.map (getCell s)).toFinset ≠ {none})
      ↔ ∃ c : Char, locs ≠ [] ∧ ∀ loc ∈ locs, getCell s loc = some c := by
  rw [toFinset_singleton_iff]
  constructor
  · rintro ⟨c, hne, hall⟩
    exact ⟨c, by simpa using hne, fun loc hloc => hall _ (List.mem_map_of_mem _ hloc)⟩
  · rintro ⟨c, hne, hall⟩
    refine ⟨c, by simpa using hne, ?_⟩
    intro x hx
    obtain ⟨loc, hloc, rfl⟩ := List.mem_map.mp hx
    exact hall loc hloc

theorem lineUniform_congr (s : TicTacToeState) (A B : List (Int × Int))
    (h : ∀ x, x ∈ A ↔ x ∈ B) :
    (∃ c : Char, A ≠ [] ∧ ∀ loc ∈ A, getCell s loc = some c) ↔ lineUniform s B := by
  unfold lineUniform
  constructor
  · rintro ⟨c, hA, hall⟩
    obtain ⟨a, ha⟩ := List.exists_mem_of_ne_nil A hA
    exact ⟨c, List.ne_nil_of_mem ((h a).mp ha),
      fun loc hloc => hall loc ((h loc).mpr hloc)⟩
  · rintro ⟨c, hB, hall⟩
    obtain ⟨b, hb⟩ := List.exists_mem_of_ne_nil B hB
    exact ⟨c, List.ne_nil_of_mem ((h b).mpr hb),
      fun loc hloc => hall loc ((h loc).mp hloc)⟩

theorem mem_filter_diag (n : Nat) (x : Int × Int) :
    x ∈ (gridKeys n).filter (fun p => decide (p.1 = p.2)) ↔ x ∈ mainDiag n := by
  obtain ⟨a, b⟩ := x
  simp only [List.mem_filter, mem_gridKeys, decide_eq_true_eq, mainDiag,
    List.mem_map, mem_pyRangeN, Prod.mk.injEq]
  constructor
  · rintro ⟨⟨h0, h1, h2, h3⟩, he⟩
    exact ⟨a, ⟨h0, h1⟩, rfl, he⟩
  · rintro ⟨i, ⟨h0, h1⟩, rfl, rfl⟩
    exact ⟨⟨h0, h1, h0, h1⟩, rfl⟩

theorem mem_filter_antidiag (n : Nat) (x : Int × Int) :
    x ∈ (gridKeys n).filter (fun p => decide (p.1 = (n : Int) - 1 - p.2))
      ↔ x ∈ antiDiag n := by
  obtain ⟨a, b⟩ := x
  simp only [List.mem_filter, mem_gridKeys, decide_eq_true_eq, antiDiag,
    List.mem_map, mem_pyRangeN, Prod.mk.injEq]
  constructor
  · rintro ⟨⟨h0, h1, h2, h3⟩, he⟩
    exact ⟨b, ⟨h2, h3⟩, he.symm, rfl⟩
  · rintro ⟨c, ⟨h0, h1⟩, rfl, rfl⟩
    refine ⟨⟨by omega, by omega, h0, h1⟩, rfl⟩

theorem mem_filter_row (n : Nat) (i : Int) (hi : 0 ≤ i ∧ i < n) (x : Int × Int) :
    x ∈ (gridKeys n).filter (fun p => decide (p.1 = i)) ↔ x ∈ rowLine n i := by
  obtain ⟨a, b⟩ := x
  simp only [List.mem_filter, mem_gridKeys, decide_eq_true_eq, rowLine,
    List.mem_map, mem_pyRangeN, Prod.mk.injEq]
  constructor
  · rintro ⟨⟨h0, h1, h2, h3⟩, he⟩
    exact ⟨b, ⟨h2, h3⟩, he.symm, rfl⟩
  · rintro ⟨c, ⟨h0, h1⟩, rfl, rfl⟩
    exact ⟨⟨hi.1, hi.2, h0, h1⟩, rfl⟩

theorem mem_filter_col (n : Nat) (i : Int) (hi : 0 ≤ i ∧ i < n) (x : Int × Int) :
    x ∈ (gridKeys n).filter (fun p => decide (p.2 = i)) ↔ x ∈ colLine n i := by
  obtain ⟨a, b⟩ := x
  simp only [List.mem_filter, mem_gridKeys, decide_eq_true_eq, colLine,
    List.mem_map, mem_pyRangeN, Prod.mk.injEq]
  constructor
  · rintro ⟨⟨h0, h1, h2, h3⟩, he⟩
    exact ⟨a, ⟨h0, h1⟩, rfl, he.symm⟩
  · rintro ⟨r, ⟨h0, h1⟩, rfl, rfl⟩
    exact ⟨⟨h0, h1, hi.1, hi.2⟩, rfl⟩

theorem mem_pyRange_natCast {n : Nat} {x : Int} :
    x ∈ pyRange (n : Int) ↔ 0 ≤ x ∧ x < n := by
  unfold pyRange
  rw [Int.toNat_natCast]
  exact mem_pyRangeN

/-- The check sets actually examined by `victory` on a well-formed `n × n`
board, with the board's key list and size rewritten to the grid. -/
theorem victory_eq_any (s : TicTacToeState) (n : Nat) (hw : wellFormed s n) :
    s.victory = (([(gridKeys n).filter (fun p => decide (p.1 = p.2)),
        (gridKeys n).filter (fun p => decide (p.1 = (n : Int) - 1 - p.2))]
      ++ (pyRange (n : Int)).flatMap (fun i =>
           [(gridKeys n).filter (fun p => decide (p.1 = i)),
            (gridKeys n).filter (fun p => decide (p.2 = i))])).any (fun locs =>
      decide ((locs.map (getCell s)).toFinset.card = 1
        ∧ (locs.map (getCell s)).toFinset ≠ {none}))) := by
  unfold TicTacToeState.victory
  rw [size_of_wellFormed s n hw, hw]

/-- Claim C1: on a well-formed `n × n` board, `victory` returns `true` iff
some candidate line — the main diagonal, the anti-diagonal
(`row = n - 1 - col`), a full row, or a full column, and no other line — is
uniformly occupied by a single non-empty label. -/
theorem claim_C1 (s : TicTacToeState) (n : Nat) (hw : wellFormed s n) :
    s.victory = true ↔ hasWinningLineSpec s n := by
  rw [victory_eq_any s n hw, List.any_eq_true]
  unfold hasWinningLineSpec
  constructor
  · rintro ⟨locs, hmem, hcond⟩
    rw [decide_eq_true_eq] at hcond
    have huni := (checkWins_iff s locs).mp hcond
    rcases List.mem_append.mp hmem with h2 | hfm
    · rcases List.mem_cons.mp h2 with rfl | h2
      · refine ⟨mainDiag n, ?_, (lineUniform_congr s _ _ (mem_filter_diag n)).mp huni⟩
        unfold specLines
        exact List.mem_append_left _ (List.mem_append_left _ (List.mem_cons_self _ _))
      rcases List.mem_cons.mp h2 with rfl | h2
      · refine ⟨antiDiag n, ?_,
          (lineUniform_congr s _ _ (mem_filter_antidiag n)).mp huni⟩
        unfold specLines
        exact List.mem_append_left _ (List.mem_append_left _
          (List.mem_cons_of_mem _ (List.mem_cons_self _ _)))
      · cases h2
    · obtain ⟨i, hi, hloc⟩ := List.mem_flatMap.mp hfm
      have hin : 0 ≤ i ∧ i < n := mem_pyRange_natCast.mp hi
      have hiN : i ∈ pyRangeN n := mem_pyRangeN.mpr hin
      rcases List.mem_cons.mp hloc with rfl | hloc
      · refine ⟨rowLine n i, ?_,
          (lineUniform_congr s _ _ (mem_filter_row n i hin)).mp huni⟩
        unfold specLines
        exact List.mem_append_left _
          (List.mem_append_right _ (List.mem_map_of_mem (rowLine n) hiN))
      rcases List.mem_cons.mp hloc with rfl | hloc
      · refine ⟨colLine n i, ?_,
          (lineUniform_congr s _ _ (mem_filter_col n i hin)).mp huni⟩
        unfold specLines
        exact List.mem_append_right _ (List.mem_map_of_mem (colLine n) hiN)
      · cases hloc
  · rintro ⟨line, hmem, huni⟩
    unfold specLines at hmem
    rcases List.mem_append.mp hmem with hlr | hc
    · rcases List.mem_append.mp hlr with h2 | hr
      · rcases List.mem_cons.mp h2 with rfl | h2
        · refine ⟨(gridKeys n).filter (fun p => decide (p.1 = p.2)), ?_, ?_⟩
          · exact List.mem_append_left _ (List.mem_cons_self _ _)
          · rw [decide_eq_true_eq, checkWins_iff]
            exact (lineUniform_congr s _ _ (mem_filter_diag n)).mpr huni
        rcases List.mem_cons.mp h2 with rfl | h2
        · refine ⟨(gridKeys n).filter (fun p => decide (p.1 = (n : Int) - 1 - p.2)),
            ?_, ?_⟩
          · exact List.mem_append_left _
              (List.mem_cons_of_mem _ (List.mem_cons_self _ _))
          · rw [decide_eq_true_eq, checkWins_iff]
            exact (lineUniform_congr s _ _ (mem_filter_antidiag n)).mpr huni
        · cases h2
      · obtain ⟨i, hiN, rfl⟩ := List.mem_map.mp hr
        have hin : 0 ≤ i ∧ i < n := mem_pyRangeN.mp hiN
        refine ⟨(gridKeys n).filter (fun p => decide (p.1 = i)), ?_, ?_⟩
        · refine List.mem_append_right _ (List.mem_flatMap.mpr
            ⟨i, mem_pyRange_natCast.mpr hin, List.mem_cons_self _ _⟩)
        · rw [decide_eq_true_eq, checkWins_iff]
          exact (lineUniform_congr s _ _ (mem_filter_row n i hin)).mpr huni
    · obtain ⟨i, hiN, rfl⟩ := List.mem_map.mp hc
      have hin : 0 ≤ i ∧ i < n := mem_pyRangeN.mp hiN
      refine ⟨(gridKeys n).filter (fun p => decide (p.2 = i)), ?_, ?_⟩
      · refine List.mem_append_right _ (List.mem_flatMap.mpr
          ⟨i, mem_pyRange_natCast.mpr hin,
            List.mem_cons_of_mem _ (List.mem_cons_self _ _)⟩)
      · rw [decide_eq_true_eq, checkWins_iff]
        exact (lineUniform_congr s _ _ (mem_filter_col n i hin)).mpr huni

/-- Witness for C1: the full test board (whose rightmost column is all `x`)
is well-formed of size 3, and the equivalence applies to it. -/
theorem claim_C1_witness :
    wellFormed fullBoard 3
    ∧ (fullBoard.victory = true ↔ hasWinningLineSpec fullBoard 3) :=
  ⟨by decide, claim_C1 fullBoard 3 (by decide)⟩

/-! Claim C8: a match between two players that always produce legal moves
terminates in a win or a draw within `size²` turns. -/

theorem getCell_new (sizeI : Int) (loc : Int × Int) :
    getCell (TicTacToeState.new sizeI) loc = none := by
  unfold getCell TicTacToeState.new
  by_cases h : loc ∈ gridKeys sizeI.toNat
  · rw [lookup_pairNone _ _ h]
    rfl
  · rw [lookup_pairNone_not_mem _ _ h]
    rfl

theorem wellFormed_new (m : Nat) : wellFormed (TicTacToeState.new (m : Int)) m := by
  show List.map Prod.fst _ = gridKeys m
  rw [show TicTacToeState.new (m : Int)
      = ⟨(gridKeys m).map (fun loc => (loc, none))⟩ from by
    unfold TicTacToeState.new
    rw [Int.toNat_natCast]]
  simp [List.map_map, Function.comp_def]

theorem nodup_new (m : Nat) :
    ((TicTacToeState.new (m : Int)).board.map Prod.fst).Nodup := by
  rw [wellFormed_new m]
  exact nodup_gridKeys m

theorem game_over_new (n : Nat) (hn : 0 < n) :
    (TicTacToeState.new (n : Int)).game_over = false := by
  have hmem : ((0 : Int), (0 : Int)) ∈ gridKeys n :=
    mem_gridKeys.mpr ⟨by omega, by omega, by omega, by omega⟩
  have hfull : (TicTacToeState.new (n : Int)).full = false := by
    apply Bool.eq_false_iff.mpr
    intro htrue
    simp only [TicTacToeState.full, List.all_eq_true] at htrue
    have hent : (((0 : Int), (0 : Int)), (none : Option Char))
        ∈ (TicTacToeState.new (n : Int)).board := by
      rw [show TicTacToeState.new (n : Int)
          = ⟨(gridKeys n).map (fun loc => (loc, none))⟩ from by
        unfold TicTacToeState.new
        rw [Int.toNat_natCast]]
      exact List.mem_map_of_mem _ hmem
    have := htrue _ hent
    simp at this
  have hvic : (TicTacToeState.new (n : Int)).victory = false := by
    apply Bool.eq_false_iff.mpr
    intro htrue
    rw [victory_eq_any _ n (wellFormed_new n), List.any_eq_true] at htrue
    obtain ⟨locs, _, hcond⟩ := htrue
    rw [decide_eq_true_eq] at hcond
    obtain ⟨c, hne, hall⟩ := (checkWins_iff _ locs).mp hcond
    obtain ⟨loc, hloc⟩ := List.exists_mem_of_ne_nil locs hne
    have hv := hall loc hloc
    rw [getCell_new] at hv
    cases hv
  simp [TicTacToeState.game_over, hfull, hvic]

theorem emptyCount_new (m : Nat) : emptyCount (TicTacToeState.new (m : Int)) = m * m := by
  unfold emptyCount
  rw [show TicTacToeState.new (m : Int)
      = ⟨(gridKeys m).map (fun loc => (loc, none))⟩ from by
    unfold TicTacToeState.new
    rw [Int.toNat_natCast]]
  rw [List.filter_eq_self.mpr]
  · rw [List.length_map, length_gridKeys]
  · intro e he
    obtain ⟨loc, _, rfl⟩ := List.mem_map.mp he
    rfl

/-- One successful turn of the driver, on explicit driver state: the player
is drawn from the cycle, proposes a legal move on the current board, the new
state is appended, observers stay silent, and the result is `GameOver` or
`next` depending on the new state. -/
theorem move_step (states : List TicTacToeState) (ps : List PlayerM)
    (ls : List Char) (t : Nat) (s : TicTacToeState) (p : PlayerM) (lab : Char)
    (mv : Int × Int)
    (hget : (ps.zip ls).get? (t % (ps.zip ls).length) = some (p, lab))
    (hlast : states.getLast? = some s)
    (hmv : p.getMove s = .ok mv)
    (hempty : lookup s.board mv = some none)
    (hobs : firstObserveFailureFrom 0 ps s lab mv ⟨setCell s.board mv (some lab)⟩
      = none) :
    Game.move ⟨states, ps, ls, t⟩ =
      if TicTacToeState.game_over ⟨setCell s.board mv (some lab)⟩ then
        if TicTacToeState.victory ⟨setCell s.board mv (some lab)⟩ then
          StepResult.gameOver
            ⟨states ++ [⟨setCell s.board mv (some lab)⟩], ps, ls, t + 1⟩
            (GameOver.victoryScores ls lab)
        else
          StepResult.gameOver
            ⟨states ++ [⟨setCell s.board mv (some lab)⟩], ps, ls, t + 1⟩
            (GameOver.drawScores ls)
      else
        StepResult.next ⟨states ++ [⟨setCell s.board mv (some lab)⟩], ps, ls, t + 1⟩ := by
  have hmove : s.move mv lab = .ok ⟨setCell s.board mv (some lab)⟩ := by
    simp [TicTacToeState.move, hempty]
  simp only [List.get?_eq_getElem?, List.length_zip] at hget
  simp only [Game.move, Game.currentState, List.get?_eq_getElem?, List.length_zip,
    hget, hlast, Option.getD_some, hmv, hmove, hobs]

/-- The run loop reaches `GameOver` in at most as many turns as there are
empty cells, for a two-player game where both players always have a legal
move ready. -/
theorem playFuel_reaches_gameOver (p₁ p₂ : PlayerM)
    (h₁ : LegalPlayer p₁) (h₂ : LegalPlayer p₂) (l₁ l₂ : Char) :
    ∀ (k : Nat) (states : List TicTacToeState) (t : Nat) (s : TicTacToeState),
      states.getLast? = some s →
      (s.board.map Prod.fst).Nodup →
      s.game_over = false →
      emptyCount s = k →
      ∃ scores, Game.playFuel k ⟨states, [p₁, p₂], [l₁, l₂], t⟩ = some scores := by
  intro k
  induction k with
  | zero =>
    intro states t s hlast hnd hov hcnt
    exfalso
    have hfull : s.full = false := by
      unfold TicTacToeState.game_over at hov
      exact (Bool.or_eq_false_iff.mp hov).1
    have : s.full = true := (full_iff_emptyCount s.board).mpr hcnt
    rw [hfull] at this
    cases this
  | succ k ih =>
    intro states t s hlast hnd hov hcnt
    have hact : ∃ p lab,
        (([p₁, p₂].zip [l₁, l₂]).get? (t % ([p₁, p₂].zip [l₁, l₂]).length)
          = some (p, lab)) ∧ LegalPlayer p := by
      rcases Nat.mod_two_eq_zero_or_one t with hmod | hmod
      · exact ⟨p₁, l₁, by simp [hmod], h₁⟩
      · exact ⟨p₂, l₂, by simp [hmod], h₂⟩
    obtain ⟨p, lab, hget, hpl⟩ := hact
    obtain ⟨mv, hmv, hempty⟩ := hpl.1 s hnd hov
    have hobs : firstObserveFailureFrom 0 [p₁, p₂] s lab mv
        ⟨setCell s.board mv (some lab)⟩ = none := by
      simp [firstObserveFailureFrom, h₁.2, h₂.2]
    have hstep := move_step states [p₁, p₂] [l₁, l₂] t s p lab mv hget hlast hmv
      hempty hobs
    have hnd' : ((TicTacToeState.mk (setCell s.board mv (some lab))).board.map
        Prod.fst).Nodup := by
      show ((setCell s.board mv (some lab)).map Prod.fst).Nodup
      rw [setCell_map_fst]
      exact hnd
    have hcnt' : emptyCount ⟨setCell s.board mv (some lab)⟩ = k := by
      have hdec := emptyCount_setCell s.board mv lab hnd hempty
      have hs : emptyCount ⟨s.board⟩ = k + 1 := hcnt
      omega
    by_cases hov' : TicTacToeState.game_over ⟨setCell s.board mv (some lab)⟩
    · rw [if_pos hov'] at hstep
      by_cases hvic : TicTacToeState.victory ⟨setCell s.board mv (some lab)⟩
      · rw [if_pos hvic] at hstep
        exact ⟨GameOver.victoryScores [l₁, l₂] lab, by
          simp [Game.playFuel, hstep]⟩
      · rw [if_neg hvic] at hstep
        exact ⟨GameOver.drawScores [l₁, l₂], by
          simp [Game.playFuel, hstep]⟩
    · rw [if_neg hov'] at hstep
      have hov'false : TicTacToeState.game_over ⟨setCell s.board mv (some lab)⟩
          = false := Bool.eq_false_iff.mpr hov'
      obtain ⟨scores, hsc⟩ := ih (states ++ [⟨setCell s.board mv (some lab)⟩])
        (t + 1) ⟨setCell s.board mv (some lab)⟩ (List.getLast?_concat _)
        hnd' hov'false hcnt'
      exact ⟨scores, by simp [Game.playFuel, hstep, hsc]⟩

/-- Claim C8: a match on an `n × n` board (`n > 0`) between two players whose
move selection is deterministic, never raises, and always proposes a legal
move on a non-over board, reaches a terminal outcome — the scores of a win
or a draw — within `n²` turns of the run loop. -/
theorem claim_C8 (n : Nat) (hn : 0 < n) (p₁ p₂ : PlayerM)
    (h₁ : LegalPlayer p₁) (h₂ : LegalPlayer p₂) (l₁ l₂ : Char) :
    ∃ scores, Game.playFuel (n * n)
      ⟨[TicTacToeState.new (n : Int)], [p₁, p₂], [l₁, l₂], 0⟩ = some scores :=
  playFuel_reaches_gameOver p₁ p₂ h₁ h₂ l₁ l₂ (n * n)
    [TicTacToeState.new (n : Int)] 0 (TicTacToeState.new (n : Int))
    rfl (nodup_new n) (game_over_new n hn) (emptyCount_new n)

theorem firstEmptyPlayer_legal : LegalPlayer firstEmptyPlayer := by
  constructor
  · intro s hnd hov
    have hfull : s.full = false := by
      unfold TicTacToeState.game_over at hov
      exact (Bool.or_eq_false_iff.mp hov).1
    have hex : ∃ e ∈ s.board, e.2.isNone = true := by
      by_contra hc
      push_neg at hc
      have : s.full = true := by
        simp only [TicTacToeState.full, List.all_eq_true]
        intro e he
        have h := hc e he
        revert h
        cases e.2 <;> simp
      rw [hfull] at this
      cases this
    obtain ⟨e, he, hnone⟩ := hex
    have hfind : ∃ e', s.board.find? (fun x => x.2.isNone) = some e' := by
      rcases hf : s.board.find? (fun x => x.2.isNone) with _ | e'
      · exfalso
        have := List.find?_eq_none.mp hf e he
        exact this hnone
      · exact ⟨e', hf⟩
    obtain ⟨e', hf⟩ := hfind
    have he'mem : e' ∈ s.board := List.mem_of_find?_eq_some hf
    have hp := List.find?_some hf
    have he'none : e'.2 = none := Option.isNone_iff_eq_none.mp (by simpa using hp)
    refine ⟨e'.1, ?_, ?_⟩
    · simp [firstEmptyPlayer, hf]
    · have h := lookup_of_mem_nodup s.board e' he'mem hnd
      rw [he'none] at h
      exact h
  · intro st lab mv st'
    rfl

/-- Witness for C8: the first-empty-cell stub players on the standard 3 × 3
board reach a terminal outcome within 9 turns. -/
theorem claim_C8_witness :
    ∃ scores, Game.playFuel (3 * 3)
      ⟨[TicTacToeState.new ((3 : Nat) : Int)], [firstEmptyPlayer, firstEmptyPlayer],
        ['x', 'o'], 0⟩ = some scores :=
  claim_C8 3 (by decide) firstEmptyPlayer firstEmptyPlayer
    firstEmptyPlayer_legal firstEmptyPlayer_legal 'x' 'o'

end TTT
